import Mathlib

/-!
Formal model of `scripts/polygons/validate_self_intersections.py`.

The script validates polygon rings from GeoJSON assets: it detects
self-intersections of a closed ring with exact orientation/segment
predicates (with an epsilon tolerance `EPS = 1e-12`) accelerated by a
uniform grid over the ring's bounding box.

The Python code computes with IEEE doubles; the model uses exact
rationals (`ℚ`), so every arithmetic operation of the source is mirrored
exactly, without rounding.  Python's `int(x)` (truncation toward zero)
is modelled by `truncQ`, `int(math.sqrt(m))` by the floor square root
`isqrt` (they agree for every feasible edge count), and the
wall-clock duration returned by `deep_self_intersections` — the only
impure value in the function — is modelled as the constant `0`.
Python's insertion-ordered `dict` is modelled by an association list
keyed by grid cell, and the `seen_pairs` set by a duplicate-free list.
Calling `deep_self_intersections` on an empty ring raises `IndexError`
in Python (`ring[0]`); the model returns `none` in that case.
-/

namespace WWW

abbrev Point : Type := ℚ × ℚ

/-- Model of `EPS = 1e-12`. -/
def EPS : ℚ := 1 / 1000000000000

/-- Model of `orient(a, b, c)`:
`(b[0]-a[0])*(c[1]-a[1]) - (b[1]-a[1])*(c[0]-a[0])`. -/
def orient (a b c : Point) : ℚ :=
  (b.1 - a.1) * (c.2 - a.2) - (b.2 - a.2) * (c.1 - a.1)

/-- Model of `on_seg(a, b, p)`: `p` is collinear with `a`–`b` within `EPS`
and lies inside the segment's bounding box with `EPS` slack. -/
def on_seg (a b p : Point) : Bool :=
  if |orient a b p| > EPS then false
  else
    decide (min a.1 b.1 - EPS ≤ p.1 ∧ p.1 ≤ max a.1 b.1 + EPS ∧
            min a.2 b.2 - EPS ≤ p.2 ∧ p.2 ≤ max a.2 b.2 + EPS)

/-- Model of `seg_intersect(a, b, c, d)`. -/
def seg_intersect (a b c d : Point) : Bool :=
  let o1 := orient a b c
  let o2 := orient a b d
  let o3 := orient c d a
  let o4 := orient c d b
  if (decide (o1 > 0) != decide (o2 > 0)) && (decide (o3 > 0) != decide (o4 > 0)) then true
  else if decide (|o1| ≤ EPS) && on_seg a b c then true
  else if decide (|o2| ≤ EPS) && on_seg a b d then true
  else if decide (|o3| ≤ EPS) && on_seg c d a then true
  else if decide (|o4| ≤ EPS) && on_seg c d b then true
  else false

/-- Model of the closing step of `deep_self_intersections`:
`if ring[0] != ring[-1]: ring = ring + [ring[0]]`. -/
def closeRing : List Point → List Point
  | [] => []
  | p :: ps => if ps.getLastD p = p then p :: ps else (p :: ps) ++ [p]

/-- Edges of the closed ring: `(ring[i], ring[i+1])` for `i < len(ring) - 1`. -/
def edgesOf (r : List Point) : List (Point × Point) := r.zip r.tail

/-- Model of Python's `min` over the nonempty list `xs` (`0` on `[]`,
which the algorithm never evaluates). -/
def listMin : List ℚ → ℚ
  | [] => 0
  | x :: xs => xs.foldl min x

/-- Model of Python's `max` over the nonempty list `xs`. -/
def listMax : List ℚ → ℚ
  | [] => 0
  | x :: xs => xs.foldl max x

/-- The `xs` list of the source: both x-coordinates of every edge. -/
def xsList (edges : List (Point × Point)) : List ℚ :=
  edges.flatMap fun e => [e.1.1, e.2.1]

/-- The `ys` list of the source: both y-coordinates of every edge. -/
def ysList (edges : List (Point × Point)) : List ℚ :=
  edges.flatMap fun e => [e.1.2, e.2.2]

/-- Model of `int(math.sqrt(m))`: the floor square root, written as a
bounded search so that it evaluates by kernel reduction
(`isqrt_eq_sqrt` below identifies it with `Nat.sqrt`). -/
def isqrt (m : ℕ) : ℕ :=
  ((List.range (m + 1)).filter fun k => decide (k * k ≤ m)).foldr max 0

/-- Model of `gdim = max(16, min(256, int(math.sqrt(m))))`. -/
def gdim (m : ℕ) : ℕ := max 16 (min 256 (isqrt m))

/-- Model of Python's `int()` on a rational: truncation toward zero,
written with `Rat.floor` (`truncQ_eq` below restates it with `⌊⌋`/`⌈⌉`). -/
def truncQ (q : ℚ) : ℤ := if 0 ≤ q then q.floor else -((-q).floor)

/-- Model of `max(0, min(gdim - 1, z))` followed by use as a cell index. -/
def clampCell (g : ℕ) (z : ℤ) : ℕ := (max 0 (min ((g : ℤ) - 1) z)).toNat

/-- The grid geometry computed by `deep_self_intersections` before building
the grid: `minx`, `miny`, `cell_w`, `cell_h` and `gdim`. -/
structure GridParams where
  minx : ℚ
  miny : ℚ
  cw : ℚ
  ch : ℚ
  g : ℕ
deriving DecidableEq

/-- Model of lines 71–77 of the source: bounding box, degenerate-span guard
(minimum span `1e-9`) and cell size. -/
def gridParamsOf (edges : List (Point × Point)) : GridParams :=
  let xs := xsList edges
  let ys := ysList edges
  let minx := listMin xs
  let maxx := listMax xs
  let miny := listMin ys
  let maxy := listMax ys
  let spanx := max (maxx - minx) (1 / 1000000000)
  let spany := max (maxy - miny) (1 / 1000000000)
  let g := gdim edges.length
  ⟨minx, miny, spanx / (g : ℚ), spany / (g : ℚ), g⟩

/-- Model of `cell_indices_for_edge(a, b)`: every cell `(ix, iy)` with
`ix0 ≤ ix ≤ ix1` and `iy0 ≤ iy ≤ iy1`, where the bounds are the clamped
truncated cell coordinates of the edge's bounding box. -/
def cell_indices_for_edge (P : GridParams) (a b : Point) : List (ℕ × ℕ) :=
  let x0 := min a.1 b.1
  let x1 := max a.1 b.1
  let y0 := min a.2 b.2
  let y1 := max a.2 b.2
  let ix0 := clampCell P.g (truncQ ((x0 - P.minx) / P.cw))
  let ix1 := clampCell P.g (truncQ ((x1 - P.minx) / P.cw))
  let iy0 := clampCell P.g (truncQ ((y0 - P.miny) / P.ch))
  let iy1 := clampCell P.g (truncQ ((y1 - P.miny) / P.ch))
  (List.range' ix0 (ix1 + 1 - ix0)).flatMap fun ix =>
    (List.range' iy0 (iy1 + 1 - iy0)).map fun iy => (ix, iy)

/-- The grid: Python's insertion-ordered `dict` mapping a cell to the list
of edge indices inserted into it, modelled as an association list. -/
abbrev Grid : Type := List ((ℕ × ℕ) × List ℕ)

/-- Model of `grid.setdefault(key, []).append(i)`. -/
def gridInsert (k : ℕ × ℕ) (i : ℕ) : Grid → Grid
  | [] => [(k, [i])]
  | (k', l) :: rest =>
    if k' = k then (k', l ++ [i]) :: rest else (k', l) :: gridInsert k i rest

/-- Insertion of one edge into all cells returned by
`cell_indices_for_edge` (lines 93–95 of the source). -/
def insertEdgeCells (P : GridParams) (G : Grid) (i : ℕ) (e : Point × Point) : Grid :=
  (cell_indices_for_edge P e.1 e.2).foldl (fun acc k => gridInsert k i acc) G

/-- Model of the grid-building loop `for i, (a, b) in enumerate(edges)`. -/
def buildGrid (P : GridParams) (edges : List (Point × Point)) : Grid :=
  (List.range edges.length).foldl
    (fun G i => insertEdgeCells P G i (edges.getD i default)) []

/-- The ordered pairs `(idxs[ii], idxs[jj])` with `ii < jj`, in the
iteration order of the doubly-nested loop of lines 103–105. -/
def pairsOfList : List ℕ → List (ℕ × ℕ)
  | [] => []
  | x :: xs => (xs.map fun y => (x, y)) ++ pairsOfList xs

/-- The sequence of candidate pairs examined by the main loop, in order:
for each grid entry (cells with fewer than two edges are skipped), all
in-cell pairs. -/
def candidateStream (G : Grid) : List (ℕ × ℕ) :=
  G.flatMap fun kv => if kv.2.length < 2 then [] else pairsOfList kv.2

/-- One intersection record `(i, j, a, b, c, d)` appended by line 116. -/
structure Inter where
  i : ℕ
  j : ℕ
  a : Point
  b : Point
  c : Point
  d : Point
deriving DecidableEq

/-- Model of the body of the candidate loop (lines 107–116): adjacency
exclusion, keypair deduplication via `seen_pairs`, and the exact
intersection test.  The state is `(intersections, seen_pairs)`. -/
def processPair (edges : List (Point × Point)) (m : ℕ)
    (st : List Inter × List (ℕ × ℕ)) (p : ℕ × ℕ) : List Inter × List (ℕ × ℕ) :=
  let i := p.1
  let j := p.2
  if j = i ∨ j = i + 1 ∨ i = j + 1 ∨ (i = 0 ∧ j = m - 1) then st
  else
    let kp := if i < j then (i, j) else (j, i)
    if kp ∈ st.2 then st
    else
      let e1 := edges.getD i default
      let e2 := edges.getD j default
      let seen := st.2 ++ [kp]
      if seg_intersect e1.1 e1.2 e2.1 e2.2 then
        (st.1 ++ [⟨i, j, e1.1, e1.2, e2.1, e2.2⟩], seen)
      else (st.1, seen)

/-- The main loop over the grid (lines 99–116). -/
def runGrid (edges : List (Point × Point)) (m : ℕ) (G : Grid) :
    List Inter × List (ℕ × ℕ) :=
  (candidateStream G).foldl (processPair edges m) ([], [])

/-- Model of `deep_self_intersections(ring)`.  Returns
`(intersections, duration, len(seen_pairs))`; the wall-clock duration is
modelled as `0` (the short-circuit returns the literal `0.0`).  `none`
models the `IndexError` Python raises on an empty ring. -/
def deep_self_intersections (ring : List Point) :
    Option (List Inter × ℚ × ℕ) :=
  match ring with
  | [] => none
  | _ :: _ =>
    let r := closeRing ring
    let m := r.length - 1
    if m ≤ 3 then some ([], 0, 0)
    else
      let edges := edgesOf r
      let P := gridParamsOf edges
      let res := runGrid edges m (buildGrid P edges)
      some (res.1, 0, res.2.length)

/-! Derived definitions used to state properties of the model. -/

/-- Lookup of a cell's edge-index list in the grid (`[]` when the cell is
absent, matching an empty bucket). -/
def gridGet (G : Grid) (k : ℕ × ℕ) : List ℕ :=
  match G with
  | [] => []
  | (k', l) :: rest => if k' = k then l else gridGet rest k

/-- The grid cells of edge `i` (via `edges[i]`, `default` out of range). -/
def cellsOfEdge (P : GridParams) (edges : List (Point × Point)) (i : ℕ) :
    List (ℕ × ℕ) :=
  cell_indices_for_edge P (edges.getD i default).1 (edges.getD i default).2

/-- The skip condition of line 107 of the source:
`j == i or j == i + 1 or i == j + 1 or (i == 0 and j == m - 1)`. -/
def adjSkip (m i j : ℕ) : Prop :=
  j = i ∨ j = i + 1 ∨ i = j + 1 ∨ (i = 0 ∧ j = m - 1)

instance (m i j : ℕ) : Decidable (adjSkip m i j) := by
  unfold adjSkip; infer_instance

/-- The exact predicate applied to the edge pair `(i, j)`. -/
def segTest (edges : List (Point × Point)) (i j : ℕ) : Bool :=
  seg_intersect (edges.getD i default).1 (edges.getD i default).2
    (edges.getD j default).1 (edges.getD j default).2

/-- The record appended by line 116 for the pair `(i, j)`. -/
def mkRec (edges : List (Point × Point)) (i j : ℕ) : Inter :=
  ⟨i, j, (edges.getD i default).1, (edges.getD i default).2,
    (edges.getD j default).1, (edges.getD j default).2⟩

/-- Number of edges `m` of the ring after closing. -/
def ringM (ring : List Point) := (closeRing ring).length - 1

/-- Edges of the ring after closing. -/
def ringEdges (ring : List Point) : List (Point × Point) :=
  edgesOf (closeRing ring)

/-- Grid geometry of the ring after closing. -/
def ringParams (ring : List Point) : GridParams := gridParamsOf (ringEdges ring)

/-- The grid built by `deep_self_intersections` for `ring`. -/
def theGrid (ring : List Point) : Grid :=
  buildGrid (ringParams ring) (ringEdges ring)

/-- The main loop run over an arbitrary grid traversal: used to express
that the outcome does not depend on the iteration order of the `dict`. -/
def runWithGrid (ring : List Point) (G : Grid) : List Inter × List (ℕ × ℕ) :=
  runGrid (ringEdges ring) (ringM ring) G

/-- Edges `i` and `j` are co-located in at least one grid cell. -/
def sharesCellP (P : GridParams) (edges : List (Point × Point)) (i j : ℕ) : Bool :=
  (cellsOfEdge P edges i).any fun k => decide (k ∈ cellsOfEdge P edges j)

/-- Edges `i` and `j` of the closed ring are co-located in at least one
grid cell. -/
def sharesCell (ring : List Point) (i j : ℕ) : Bool :=
  sharesCellP (ringParams ring) (ringEdges ring) i j

/-- The list of intersection records returned for `ring` (`[]` for the
empty ring, on which the Python function raises). -/
def interRecords (ring : List Point) : List Inter :=
  match deep_self_intersections ring with
  | none => []
  | some (l, _, _) => l

/-- The index pairs of the returned intersection records. -/
def resultPairs (ring : List Point) : List (ℕ × ℕ) :=
  (interRecords ring).map fun r => (r.i, r.j)

/-- The tested-pair count returned for `ring` (`len(seen_pairs)`). -/
def testedCount (ring : List Point) : ℕ :=
  match deep_self_intersections ring with
  | none => 0
  | some (_, _, t) => t

/-- Modelled from the spec (claim C1): the pairs a naive all-pairs scan
would produce — every unordered pair `(i, j)`, `i < j`, of non-adjacent
edges (`j ≠ i + 1`, `i ≠ j + 1`, and not the wraparound pair `i = 0`,
`j = m - 1`) for which `seg_intersect` holds. -/
def naivePairs (ring : List Point) : List (ℕ × ℕ) :=
  (List.range (ringM ring)).flatMap fun i =>
    ((List.range (ringM ring)).filter fun j =>
      decide (i < j) && decide (j ≠ i + 1) && decide (i ≠ j + 1) &&
      decide (¬(i = 0 ∧ j = ringM ring - 1)) &&
      segTest (ringEdges ring) i j).map fun j => (i, j)

/-- The closed axis-aligned bounding boxes of edges `i` and `j` have a
common point. -/
def bboxOverlap (edges : List (Point × Point)) (i j : ℕ) : Bool :=
  let e1 := edges.getD i default
  let e2 := edges.getD j default
  decide (max (min e1.1.1 e1.2.1) (min e2.1.1 e2.2.1) ≤
            min (max e1.1.1 e1.2.1) (max e2.1.1 e2.2.1) ∧
          max (min e1.1.2 e1.2.2) (min e2.1.2 e2.2.2) ≤
            min (max e1.1.2 e1.2.2) (max e2.1.2 e2.2.2))

/-- Modelled from the claim (C5): the number of distinct unordered
candidate pairs co-located in at least one grid cell, counted after
deduplication and before adjacency filtering. -/
def claimCandidateCount (ring : List Point) : ℕ :=
  ((Finset.range (ringM ring) ×ˢ Finset.range (ringM ring)).filter fun p =>
    p.1 < p.2 ∧ sharesCell ring p.1 p.2 = true).card

/-- The number of distinct unordered non-adjacent candidate pairs
co-located in at least one grid cell (after deduplication and after
adjacency filtering). -/
def survivingCandidateCount (ring : List Point) : ℕ :=
  ((Finset.range (ringM ring) ×ˢ Finset.range (ringM ring)).filter fun p =>
    p.1 < p.2 ∧ ¬ adjSkip (ringM ring) p.1 p.2 ∧ sharesCell ring p.1 p.2 = true).card

/-- Strictly opposite signs, as claim C2 words the proper-crossing test. -/
def strictOpp (x y : ℚ) : Prop := (0 < x ∧ y < 0) ∨ (x < 0 ∧ 0 < y)

/-- The figure-eight / bowtie ring of claim C6. -/
def bowtie : List Point := [(0, 0), (2, 2), (0, 2), (2, 0)]

/-- A triangle ring (3 edges after closing). -/
def triangleRing : List Point := [(0, 0), (1, 0), (0, 1)]

/-- A ring whose edges 0 and 2 are disjoint segments lying within
`EPS`-tolerance of one another on opposite sides of the grid line `y = 1`:
`seg_intersect` accepts the pair but the two edges share no grid cell. -/
def cexRing : List Point :=
  [(2, 1 - 1/10000000000000), (6, 1 - 1/10000000000000), (4, 10),
   (4, 1 + 1/10000000000000), (16, 16), (0, 0)]

/-! Geometry of the primitive predicates (claim C2). -/

lemma EPS_pos : 0 < EPS := by norm_num [EPS]

lemma orient_eq_zero_of_degenerate (a b c : Point)
    (hx : b.1 - a.1 = 0) (hy : b.2 - a.2 = 0) : orient a b c = 0 := by
  unfold orient; rw [hx, hy]; ring

/-- A point collinear with a nondegenerate segment lies on its line's
parametrization. -/
lemma exists_param_of_orient_eq_zero (a b p : Point)
    (hu : b.1 - a.1 ≠ 0 ∨ b.2 - a.2 ≠ 0) (h : orient a b p = 0) :
    ∃ t : ℚ, p.1 = a.1 + t * (b.1 - a.1) ∧ p.2 = a.2 + t * (b.2 - a.2) := by
  unfold orient at h
  rcases hu with hx | hy
  · refine ⟨(p.1 - a.1) / (b.1 - a.1), ?_, ?_⟩
    · field_simp
    · field_simp
      nlinarith [h]
  · refine ⟨(p.2 - a.2) / (b.2 - a.2), ?_, ?_⟩
    · field_simp
      nlinarith [h]
    · field_simp

lemma between_bounds (x y t : ℚ) (h0 : 0 ≤ t) (h1 : t ≤ 1) :
    min x y ≤ x + t * (y - x) ∧ x + t * (y - x) ≤ max x y := by
  rcases le_total x y with h | h
  · rw [min_eq_left h, max_eq_right h]
    constructor <;> nlinarith
  · rw [min_eq_right h, max_eq_left h]
    constructor <;> nlinarith

/-- Any point of the segment `a`–`b` passes `on_seg a b`. -/
lemma on_seg_param (a b : Point) (t : ℚ) (h0 : 0 ≤ t) (h1 : t ≤ 1) :
    on_seg a b (a.1 + t * (b.1 - a.1), a.2 + t * (b.2 - a.2)) = true := by
  have horient : orient a b (a.1 + t * (b.1 - a.1), a.2 + t * (b.2 - a.2)) = 0 := by
    unfold orient; ring
  have hx := between_bounds a.1 b.1 t h0 h1
  have hy := between_bounds a.2 b.2 t h0 h1
  unfold on_seg
  rw [horient]
  rw [if_neg (by simp [abs_zero]; exact EPS_pos.le)]
  refine decide_eq_true ?_
  refine ⟨?_, ?_, ?_, ?_⟩ <;> simp only []
  · have := EPS_pos; linarith [hx.1]
  · have := EPS_pos; linarith [hx.2]
  · have := EPS_pos; linarith [hy.1]
  · have := EPS_pos; linarith [hy.2]

/-- Case `o1 > 0`, `o2 = 0` of `seg_intersect`: if `c`, `d` separate the
line trough `a`, `b` as the first branch tests, then `d` lies on the
segment `a`–`b`. -/
lemma on_seg_of_o2_eq_zero (a b c d : Point)
    (h1 : 0 < orient a b c) (h2 : orient a b d = 0)
    (h34 : ¬(0 < orient c d a ↔ 0 < orient c d b)) :
    on_seg a b d = true := by
  have hu : b.1 - a.1 ≠ 0 ∨ b.2 - a.2 ≠ 0 := by
    by_contra h
    push_neg at h
    exact absurd (orient_eq_zero_of_degenerate a b c h.1 h.2) (by linarith)
  obtain ⟨t, ht1, ht2⟩ := exists_param_of_orient_eq_zero a b d hu h2
  have e3 : orient c d a = -t * orient a b c := by
    unfold orient
    unfold orient at h2
    rw [ht1, ht2]; ring
  have e4 : orient c d b = (1 - t) * orient a b c := by
    unfold orient
    rw [ht1, ht2]; ring
  rw [e3, e4] at h34
  have hT0 : 0 ≤ t := by
    by_contra hneg
    push_neg at hneg
    exact h34 ⟨fun _ => by nlinarith, fun _ => by nlinarith⟩
  have hT1 : t ≤ 1 := by
    by_contra hgt
    push_neg at hgt
    refine h34 ⟨fun h3 => absurd h3 (by nlinarith), fun h4 => absurd h4 (by nlinarith)⟩
  have hd : d = (a.1 + t * (b.1 - a.1), a.2 + t * (b.2 - a.2)) := Prod.ext ht1 ht2
  rw [hd]
  exact on_seg_param a b t hT0 hT1

/-- Case `o1 = 0`, `o2 > 0` of `seg_intersect`: `c` lies on `a`–`b`. -/
lemma on_seg_of_o1_eq_zero (a b c d : Point)
    (h1 : orient a b c = 0) (h2 : 0 < orient a b d)
    (h34 : ¬(0 < orient c d a ↔ 0 < orient c d b)) :
    on_seg a b c = true := by
  have hu : b.1 - a.1 ≠ 0 ∨ b.2 - a.2 ≠ 0 := by
    by_contra h
    push_neg at h
    exact absurd (orient_eq_zero_of_degenerate a b d h.1 h.2) (by linarith)
  obtain ⟨t, ht1, ht2⟩ := exists_param_of_orient_eq_zero a b c hu h1
  have e3 : orient c d a = t * orient a b d := by
    unfold orient
    rw [ht1, ht2]; ring
  have e4 : orient c d b = (t - 1) * orient a b d := by
    unfold orient
    rw [ht1, ht2]; ring
  rw [e3, e4] at h34
  have hT0 : 0 ≤ t := by
    by_contra hneg
    push_neg at hneg
    refine h34 ⟨fun h3 => absurd h3 (by nlinarith), fun h4 => absurd h4 (by nlinarith)⟩
  have hT1 : t ≤ 1 := by
    by_contra hgt
    push_neg at hgt
    exact h34 ⟨fun _ => by nlinarith, fun _ => by nlinarith⟩
  have hc : c = (a.1 + t * (b.1 - a.1), a.2 + t * (b.2 - a.2)) := Prod.ext ht1 ht2
  rw [hc]
  exact on_seg_param a b t hT0 hT1

/-- Unfolding of the if-chain of `seg_intersect` into a disjunction. -/
lemma seg_intersect_eq_true_iff (a b c d : Point) :
    seg_intersect a b c d = true ↔
      ((decide (0 < orient a b c) != decide (0 < orient a b d)) &&
       (decide (0 < orient c d a) != decide (0 < orient c d b))) = true ∨
      (|orient a b c| ≤ EPS ∧ on_seg a b c = true) ∨
      (|orient a b d| ≤ EPS ∧ on_seg a b d = true) ∨
      (|orient c d a| ≤ EPS ∧ on_seg c d a = true) ∨
      (|orient c d b| ≤ EPS ∧ on_seg c d b = true) := by
  unfold seg_intersect
  dsimp only
  split_ifs with h1 h2 h3 h4 h5 <;>
    simp_all [Bool.and_eq_true, decide_eq_true_eq]

lemma bne_decide_of_strictOpp (x y : ℚ) (h : strictOpp x y) :
    (decide (0 < x) != decide (0 < y)) = true := by
  rcases h with ⟨hx, hy⟩ | ⟨hx, hy⟩ <;> simp [hx, hy, lt_asymm hx, lt_asymm hy]

/-- Claim C2: `seg_intersect` returns true iff the orientations are
strictly opposite in both pairs (proper crossing, with both-exactly-zero
falling through to the collinear cases) or one of the four
collinear/touching sub-cases holds. -/
theorem c2_seg_intersect_iff_claim (a b c d : Point) :
    seg_intersect a b c d = true ↔
      (strictOpp (orient a b c) (orient a b d) ∧
       strictOpp (orient c d a) (orient c d b)) ∨
      (|orient a b c| ≤ EPS ∧ on_seg a b c = true) ∨
      (|orient a b d| ≤ EPS ∧ on_seg a b d = true) ∨
      (|orient c d a| ≤ EPS ∧ on_seg c d a = true) ∨
      (|orient c d b| ≤ EPS ∧ on_seg c d b = true) := by
  rw [seg_intersect_eq_true_iff]
  constructor
  · rintro (hB | hS)
    · rw [Bool.and_eq_true, bne_iff_ne, bne_iff_ne, ne_eq, ne_eq,
        decide_eq_decide, decide_eq_decide] at hB
      obtain ⟨hb12, hb34⟩ := hB
      have pair1 : strictOpp (orient a b c) (orient a b d) ∨
          (|orient a b d| ≤ EPS ∧ on_seg a b d = true) ∨
          (|orient a b c| ≤ EPS ∧ on_seg a b c = true) := by
        by_cases ho1 : 0 < orient a b c <;> by_cases ho2 : 0 < orient a b d
        · exact absurd ⟨fun _ => ho2, fun _ => ho1⟩ hb12
        · rcases (not_lt.mp ho2).lt_or_eq with hlt | heq
          · exact Or.inl (Or.inl ⟨ho1, hlt⟩)
          · refine Or.inr (Or.inl ⟨by rw [heq]; simpa using EPS_pos.le, ?_⟩)
            exact on_seg_of_o2_eq_zero a b c d ho1 heq hb34
        · rcases (not_lt.mp ho1).lt_or_eq with hlt | heq
          · exact Or.inl (Or.inr ⟨hlt, ho2⟩)
          · refine Or.inr (Or.inr ⟨by rw [heq]; simpa using EPS_pos.le, ?_⟩)
            exact on_seg_of_o1_eq_zero a b c d heq ho2 hb34
        · exact absurd ⟨fun h => absurd h ho1, fun h => absurd h ho2⟩ hb12
      have pair2 : strictOpp (orient c d a) (orient c d b) ∨
          (|orient c d b| ≤ EPS ∧ on_seg c d b = true) ∨
          (|orient c d a| ≤ EPS ∧ on_seg c d a = true) := by
        by_cases ho3 : 0 < orient c d a <;> by_cases ho4 : 0 < orient c d b
        · exact absurd ⟨fun _ => ho4, fun _ => ho3⟩ hb34
        · rcases (not_lt.mp ho4).lt_or_eq with hlt | heq
          · exact Or.inl (Or.inl ⟨ho3, hlt⟩)
          · refine Or.inr (Or.inl ⟨by rw [heq]; simpa using EPS_pos.le, ?_⟩)
            exact on_seg_of_o2_eq_zero c d a b ho3 heq hb12
        · rcases (not_lt.mp ho3).lt_or_eq with hlt | heq
          · exact Or.inl (Or.inr ⟨hlt, ho4⟩)
          · refine Or.inr (Or.inr ⟨by rw [heq]; simpa using EPS_pos.le, ?_⟩)
            exact on_seg_of_o1_eq_zero c d a b heq ho4 hb12
        · exact absurd ⟨fun h => absurd h ho3, fun h => absurd h ho4⟩ hb34
      rcases pair1 with hstr1 | hs | hs
      · rcases pair2 with hstr2 | hs | hs
        · exact Or.inl ⟨hstr1, hstr2⟩
        · exact Or.inr (Or.inr (Or.inr (Or.inr hs)))
        · exact Or.inr (Or.inr (Or.inr (Or.inl hs)))
      · exact Or.inr (Or.inr (Or.inl hs))
      · exact Or.inr (Or.inl hs)
    · exact Or.inr hS
  · rintro (⟨hs1, hs2⟩ | hS)
    · exact Or.inl (by
        rw [Bool.and_eq_true]
        exact ⟨bne_decide_of_strictOpp _ _ hs1, bne_decide_of_strictOpp _ _ hs2⟩)
    · exact Or.inr hS

/-! Structure of the grid and of the candidate stream. -/

lemma pairsOfList_eq_nil_of_short (l : List ℕ) (h : l.length < 2) :
    pairsOfList l = [] := by
  match l with
  | [] => rfl
  | [x] => rfl
  | x :: y :: t => simp at h; omega

lemma mem_pairsOfList (l : List ℕ) (hl : l.Pairwise (· < ·)) (i j : ℕ) :
    (i, j) ∈ pairsOfList l ↔ i ∈ l ∧ j ∈ l ∧ i < j := by
  induction l with
  | nil => simp [pairsOfList]
  | cons x xs ih =>
    rw [List.pairwise_cons] at hl
    obtain ⟨hx, htail⟩ := hl
    simp only [pairsOfList, List.mem_append, List.mem_map, List.mem_cons]
    constructor
    · rintro (⟨y, hy, heq⟩ | hmem)
      · rw [Prod.ext_iff] at heq
        obtain ⟨h1, h2⟩ := heq
        dsimp only at h1 h2
        subst h1; subst h2
        exact ⟨Or.inl rfl, Or.inr hy, hx _ hy⟩
      · obtain ⟨hi, hj, hij⟩ := (ih htail).mp hmem
        exact ⟨Or.inr hi, Or.inr hj, hij⟩
    · rintro ⟨hi | hi, hj | hj, hij⟩
      · exact absurd (hi ▸ hj ▸ hij) (lt_irrefl _)
      · exact Or.inl ⟨j, hj, by rw [hi]⟩
      · exact absurd (hij.trans (hj ▸ hx i hi)) (lt_irrefl _)
      · exact Or.inr ((ih htail).mpr ⟨hi, hj, hij⟩)

lemma fst_lt_snd_of_mem_pairsOfList (l : List ℕ) (hl : l.Pairwise (· < ·))
    (p : ℕ × ℕ) (hp : p ∈ pairsOfList l) : p.1 < p.2 := by
  have := (mem_pairsOfList l hl p.1 p.2).mp (by simpa using hp)
  exact this.2.2

lemma gridGet_gridInsert (G : Grid) (k k' : ℕ × ℕ) (i : ℕ) :
    gridGet (gridInsert k i G) k' =
      if k' = k then gridGet G k' ++ [i] else gridGet G k' := by
  induction G with
  | nil =>
    by_cases h : k' = k
    · subst h; simp [gridInsert, gridGet]
    · simp [gridInsert, gridGet, h, Ne.symm h]
  | cons kv rest ih =>
    obtain ⟨k0, l0⟩ := kv
    by_cases h0 : k0 = k
    · subst h0
      by_cases h1 : k' = k0
      · subst h1; simp [gridInsert, gridGet]
      · simp [gridInsert, gridGet, h1, Ne.symm h1]
    · by_cases h1 : k' = k0
      · subst h1
        have hk : ¬k' = k := fun h => h0 (h ▸ rfl)
        simp [gridInsert, gridGet, Ne.symm h0, hk]
      · simp [gridInsert, gridGet, h0, Ne.symm h1, ih]

lemma gridInsert_keys (G : Grid) (k : ℕ × ℕ) (i : ℕ) :
    (gridInsert k i G).map Prod.fst =
      if k ∈ G.map Prod.fst then G.map Prod.fst else G.map Prod.fst ++ [k] := by
  induction G with
  | nil => simp [gridInsert]
  | cons kv rest ih =>
    obtain ⟨k0, l0⟩ := kv
    by_cases h0 : k0 = k
    · subst h0; simp [gridInsert]
    · by_cases hmem : k ∈ rest.map Prod.fst <;>
        simp [gridInsert, h0, Ne.symm h0, ih, hmem]

lemma nodup_keys_gridInsert (G : Grid) (k : ℕ × ℕ) (i : ℕ)
    (hG : (G.map Prod.fst).Nodup) : ((gridInsert k i G).map Prod.fst).Nodup := by
  rw [gridInsert_keys]
  by_cases hmem : k ∈ G.map Prod.fst
  · simpa [hmem] using hG
  · rw [if_neg hmem]
    refine hG.append (List.nodup_singleton k) ?_
    intro a ha hb
    rw [List.mem_singleton] at hb
    subst hb
    exact hmem ha

lemma gridGet_eq_of_mem (G : Grid) (k : ℕ × ℕ) (l : List ℕ)
    (hG : (G.map Prod.fst).Nodup) (h : (k, l) ∈ G) : gridGet G k = l := by
  induction G with
  | nil => simp at h
  | cons kv rest ih =>
    obtain ⟨k0, l0⟩ := kv
    simp only [List.map_cons, List.nodup_cons] at hG
    rcases List.mem_cons.mp h with heq | hrest
    · rw [Prod.ext_iff] at heq
      obtain ⟨h1, h2⟩ := heq
      dsimp only at h1 h2
      subst h1; subst h2
      simp [gridGet]
    · have hk0 : k0 ≠ k := by
        intro hk; exact hG.1 (hk ▸ List.mem_map_of_mem Prod.fst hrest)
      simp [gridGet, hk0, ih hG.2 hrest]

lemma mem_of_gridGet_ne_nil (G : Grid) (k : ℕ × ℕ) (h : gridGet G k ≠ []) :
    (k, gridGet G k) ∈ G := by
  induction G with
  | nil => simp [gridGet] at h
  | cons kv rest ih =>
    obtain ⟨k0, l0⟩ := kv
    by_cases h0 : k0 = k
    · subst h0; simp [gridGet]
    · rw [gridGet] at h ⊢
      rw [if_neg h0] at h ⊢
      exact List.mem_cons_of_mem _ (ih h)

lemma gridGet_foldl_cells (ks : List (ℕ × ℕ)) (hks : ks.Nodup) (G : Grid)
    (i : ℕ) (k : ℕ × ℕ) :
    gridGet (ks.foldl (fun acc k' => gridInsert k' i acc) G) k =
      gridGet G k ++ (if k ∈ ks then [i] else []) := by
  induction ks generalizing G with
  | nil => simp
  | cons k0 ks ih =>
    simp only [List.nodup_cons] at hks
    rw [List.foldl_cons, ih hks.2 (gridInsert k0 i G), gridGet_gridInsert]
    by_cases h : k = k0
    · subst h
      simp [hks.1]
    · simp [h, Ne.symm]

lemma nodup_keys_foldl_cells (ks : List (ℕ × ℕ)) (G : Grid) (i : ℕ)
    (hG : (G.map Prod.fst).Nodup) :
    (((ks.foldl (fun acc k' => gridInsert k' i acc) G)).map Prod.fst).Nodup := by
  induction ks generalizing G with
  | nil => exact hG
  | cons k0 ks ih => exact ih _ (nodup_keys_gridInsert G k0 i hG)

lemma cell_indices_eq_product (P : GridParams) (a b : Point) :
    cell_indices_for_edge P a b =
      (List.range' (clampCell P.g (truncQ ((min a.1 b.1 - P.minx) / P.cw)))
          (clampCell P.g (truncQ ((max a.1 b.1 - P.minx) / P.cw)) + 1 -
            clampCell P.g (truncQ ((min a.1 b.1 - P.minx) / P.cw)))) ×ˢ
      (List.range' (clampCell P.g (truncQ ((min a.2 b.2 - P.miny) / P.ch)))
          (clampCell P.g (truncQ ((max a.2 b.2 - P.miny) / P.ch)) + 1 -
            clampCell P.g (truncQ ((min a.2 b.2 - P.miny) / P.ch)))) := rfl

lemma cell_indices_product (P : GridParams) (a b : Point) (x y : ℕ) :
    (x, y) ∈ cell_indices_for_edge P a b ↔
      x ∈ List.range' (clampCell P.g (truncQ ((min a.1 b.1 - P.minx) / P.cw)))
            (clampCell P.g (truncQ ((max a.1 b.1 - P.minx) / P.cw)) + 1 -
              clampCell P.g (truncQ ((min a.1 b.1 - P.minx) / P.cw))) ∧
      y ∈ List.range' (clampCell P.g (truncQ ((min a.2 b.2 - P.miny) / P.ch)))
            (clampCell P.g (truncQ ((max a.2 b.2 - P.miny) / P.ch)) + 1 -
              clampCell P.g (truncQ ((min a.2 b.2 - P.miny) / P.ch))) := by
  rw [cell_indices_eq_product]
  exact List.mem_product

lemma cell_indices_nodup (P : GridParams) (a b : Point) :
    (cell_indices_for_edge P a b).Nodup := by
  rw [cell_indices_eq_product]
  exact (List.nodup_range' ..).product (List.nodup_range' ..)

lemma gridGet_foldl_edges (P : GridParams) (edges : List (Point × Point))
    (is : List ℕ) (G : Grid) (k : ℕ × ℕ) :
    gridGet (is.foldl (fun G i => insertEdgeCells P G i (edges.getD i default)) G) k =
      gridGet G k ++ is.filter fun i => decide (k ∈ cellsOfEdge P edges i) := by
  induction is generalizing G with
  | nil => simp
  | cons i0 is ih =>
    rw [List.foldl_cons, ih]
    show gridGet (insertEdgeCells P G i0 (edges.getD i0 default)) k ++ _ = _
    unfold insertEdgeCells
    rw [gridGet_foldl_cells _ (cell_indices_nodup _ _ _) G i0 k, List.filter_cons]
    by_cases h : k ∈ cellsOfEdge P edges i0
    · rw [if_pos (show k ∈ cell_indices_for_edge P (edges.getD i0 default).1
          (edges.getD i0 default).2 from h), if_pos (by simpa using h)]
      simp
    · rw [if_neg (show k ∉ cell_indices_for_edge P (edges.getD i0 default).1
          (edges.getD i0 default).2 from h), if_neg (by simpa using h)]
      simp

lemma gridGet_buildGrid (P : GridParams) (edges : List (Point × Point)) (k : ℕ × ℕ) :
    gridGet (buildGrid P edges) k =
      (List.range edges.length).filter fun i => decide (k ∈ cellsOfEdge P edges i) := by
  unfold buildGrid
  rw [gridGet_foldl_edges]
  rfl

lemma nodup_keys_buildGrid (P : GridParams) (edges : List (Point × Point)) :
    ((buildGrid P edges).map Prod.fst).Nodup := by
  unfold buildGrid
  generalize List.range edges.length = is
  have base : (([] : Grid).map Prod.fst).Nodup := by simp
  generalize hG : ([] : Grid) = G at base ⊢
  clear hG
  induction is generalizing G with
  | nil => exact base
  | cons i0 is ih =>
    rw [List.foldl_cons]
    exact ih _ (nodup_keys_foldl_cells _ _ _ base)

lemma pairwise_values_buildGrid (P : GridParams) (edges : List (Point × Point)) :
    ∀ kv ∈ buildGrid P edges, kv.2.Pairwise (· < ·) := by
  rintro ⟨k, l⟩ hkv
  have h := gridGet_eq_of_mem _ _ _ (nodup_keys_buildGrid P edges) hkv
  show l.Pairwise (· < ·)
  rw [← h, gridGet_buildGrid]
  exact List.Pairwise.filter _ (List.pairwise_lt_range _)

lemma mem_grid_value_buildGrid (P : GridParams) (edges : List (Point × Point))
    (i : ℕ) (k : ℕ × ℕ) :
    (∃ l, (k, l) ∈ buildGrid P edges ∧ i ∈ l) ↔
      i < edges.length ∧ k ∈ cellsOfEdge P edges i := by
  constructor
  · rintro ⟨l, hl, hi⟩
    have h := gridGet_eq_of_mem _ _ _ (nodup_keys_buildGrid P edges) hl
    rw [← h, gridGet_buildGrid] at hi
    simp only [List.mem_filter, List.mem_range, decide_eq_true_eq] at hi
    exact hi
  · rintro ⟨hlt, hcell⟩
    have hmem : i ∈ (List.range edges.length).filter
        fun i => decide (k ∈ cellsOfEdge P edges i) := by
      simp [List.mem_filter, List.mem_range, hlt, hcell]
    refine ⟨gridGet (buildGrid P edges) k, ?_, ?_⟩
    · apply mem_of_gridGet_ne_nil
      rw [gridGet_buildGrid]
      intro hnil
      rw [hnil] at hmem
      simp at hmem
    · rw [gridGet_buildGrid]
      exact hmem

lemma candidateStream_eq (G : Grid) :
    candidateStream G = G.flatMap fun kv => pairsOfList kv.2 := by
  unfold candidateStream
  induction G with
  | nil => rfl
  | cons kv rest ih =>
    rw [List.flatMap_cons, List.flatMap_cons, ih]
    by_cases h : kv.2.length < 2
    · rw [if_pos h, pairsOfList_eq_nil_of_short _ h]
    · rw [if_neg h]

lemma mem_candidateStream (G : Grid) (hG : ∀ kv ∈ G, kv.2.Pairwise (· < ·)) (i j : ℕ) :
    (i, j) ∈ candidateStream G ↔ i < j ∧ ∃ kv ∈ G, i ∈ kv.2 ∧ j ∈ kv.2 := by
  rw [candidateStream_eq]
  simp only [List.mem_flatMap]
  constructor
  · rintro ⟨kv, hkv, hp⟩
    have h := (mem_pairsOfList kv.2 (hG kv hkv) i j).mp hp
    exact ⟨h.2.2, kv, hkv, h.1, h.2.1⟩
  · rintro ⟨hij, kv, hkv, hi, hj⟩
    exact ⟨kv, hkv, (mem_pairsOfList kv.2 (hG kv hkv) i j).mpr ⟨hi, hj, hij⟩⟩

lemma stream_lt_of_pairwise (G : Grid) (hG : ∀ kv ∈ G, kv.2.Pairwise (· < ·)) :
    ∀ p ∈ candidateStream G, p.1 < p.2 := by
  intro p hp
  rw [candidateStream_eq] at hp
  simp only [List.mem_flatMap] at hp
  obtain ⟨kv, hkv, hp⟩ := hp
  exact fst_lt_snd_of_mem_pairsOfList kv.2 (hG kv hkv) p hp

lemma mem_candidateStream_of_goodGrid (P : GridParams) (edges : List (Point × Point))
    (G : Grid)
    (h1 : ∀ kv ∈ G, kv.2.Pairwise (· < ·))
    (h2 : (G.map Prod.fst).Nodup)
    (h3 : ∀ i k, (∃ l, (k, l) ∈ G ∧ i ∈ l) ↔ i < edges.length ∧ k ∈ cellsOfEdge P edges i)
    (i j : ℕ) :
    (i, j) ∈ candidateStream G ↔
      i < j ∧ i < edges.length ∧ j < edges.length ∧ sharesCellP P edges i j = true := by
  rw [mem_candidateStream G h1]
  constructor
  · rintro ⟨hij, kv, hkv, hi, hj⟩
    obtain ⟨k, l⟩ := kv
    have hI := (h3 i k).mp ⟨l, hkv, hi⟩
    have hJ := (h3 j k).mp ⟨l, hkv, hj⟩
    refine ⟨hij, hI.1, hJ.1, ?_⟩
    simp only [sharesCellP, List.any_eq_true, decide_eq_true_eq]
    exact ⟨k, hI.2, hJ.2⟩
  · rintro ⟨hij, hi, hj, hshare⟩
    simp only [sharesCellP, List.any_eq_true, decide_eq_true_eq] at hshare
    obtain ⟨k, hki, hkj⟩ := hshare
    obtain ⟨l1, hl1, hil1⟩ := (h3 i k).mpr ⟨hi, hki⟩
    obtain ⟨l2, hl2, hjl2⟩ := (h3 j k).mpr ⟨hj, hkj⟩
    have hll : l1 = l2 := by
      have e1 := gridGet_eq_of_mem G k l1 h2 hl1
      have e2 := gridGet_eq_of_mem G k l2 h2 hl2
      rw [← e1, ← e2]
    subst hll
    exact ⟨hij, (k, l1), hl1, hil1, hjl2⟩

/-! Behaviour of the candidate loop body and of the whole loop. -/

lemma processPair_adj (edges : List (Point × Point)) (m : ℕ)
    (st : List Inter × List (ℕ × ℕ)) (p : ℕ × ℕ)
    (h : adjSkip m p.1 p.2) : processPair edges m st p = st := by
  unfold adjSkip at h
  unfold processPair
  dsimp only
  rw [if_pos h]

lemma processPair_seen (edges : List (Point × Point)) (m : ℕ)
    (st : List Inter × List (ℕ × ℕ)) (p : ℕ × ℕ)
    (hadj : ¬ adjSkip m p.1 p.2) (hlt : p.1 < p.2) (hmem : p ∈ st.2) :
    processPair edges m st p = st := by
  unfold adjSkip at hadj
  unfold processPair
  dsimp only
  rw [if_neg hadj, if_pos hlt, if_pos (show (p.1, p.2) ∈ st.2 from hmem)]

lemma processPair_new (edges : List (Point × Point)) (m : ℕ)
    (st : List Inter × List (ℕ × ℕ)) (p : ℕ × ℕ)
    (hadj : ¬ adjSkip m p.1 p.2) (hlt : p.1 < p.2) (hmem : p ∉ st.2) :
    processPair edges m st p =
      if segTest edges p.1 p.2 = true
      then (st.1 ++ [mkRec edges p.1 p.2], st.2 ++ [p])
      else (st.1, st.2 ++ [p]) := by
  unfold adjSkip at hadj
  unfold processPair
  dsimp only
  rw [if_neg hadj, if_pos hlt, if_neg (show (p.1, p.2) ∉ st.2 from hmem)]
  by_cases h : segTest edges p.1 p.2 = true
  · unfold segTest at h
    rw [if_pos h, if_pos (show segTest edges p.1 p.2 = true from h)]
    exact rfl
  · unfold segTest at h
    rw [if_neg h, if_neg (show ¬ segTest edges p.1 p.2 = true from h)]

lemma mkRec_i (edges : List (Point × Point)) (i j : ℕ) : (mkRec edges i j).i = i := rfl

lemma mkRec_j (edges : List (Point × Point)) (i j : ℕ) : (mkRec edges i j).j = j := rfl

lemma runPairs_spec (edges : List (Point × Point)) (m : ℕ) (S : List (ℕ × ℕ)) :
    ∀ (A : List Inter) (seen : List (ℕ × ℕ)),
      (∀ p ∈ S, p.1 < p.2) →
      seen.Nodup →
      (∀ r ∈ A, (r.i, r.j) ∈ seen) →
      ((A.map fun r => (r.i, r.j)).Nodup) →
      (∀ x, x ∈ (S.foldl (processPair edges m) (A, seen)).2 ↔
          x ∈ seen ∨ (x ∈ S ∧ ¬ adjSkip m x.1 x.2)) ∧
      (S.foldl (processPair edges m) (A, seen)).2.Nodup ∧
      (∀ r : Inter, r ∈ (S.foldl (processPair edges m) (A, seen)).1 ↔
          r ∈ A ∨ ((r.i, r.j) ∈ S ∧ ¬ adjSkip m r.i r.j ∧ (r.i, r.j) ∉ seen ∧
            segTest edges r.i r.j = true ∧ r = mkRec edges r.i r.j)) ∧
      (((S.foldl (processPair edges m) (A, seen)).1.map fun r => (r.i, r.j)).Nodup) := by
  induction S with
  | nil =>
    intro A seen hS hseen hAseen hAnodup
    simp only [List.foldl_nil]
    exact ⟨fun x => by simp, hseen, fun r => by simp, hAnodup⟩
  | cons p S ih =>
    intro A seen hS hseen hAseen hAnodup
    rw [List.foldl_cons]
    have hplt : p.1 < p.2 := hS p (List.mem_cons_self ..)
    have hStail : ∀ q ∈ S, q.1 < q.2 := fun q hq => hS q (List.mem_cons_of_mem _ hq)
    by_cases hadj : adjSkip m p.1 p.2
    · rw [processPair_adj edges m (A, seen) p hadj]
      obtain ⟨c1, c2, c3, c5⟩ := ih A seen hStail hseen hAseen hAnodup
      refine ⟨?_, c2, ?_, c5⟩
      · intro x
        rw [c1 x]
        constructor
        · rintro (h | ⟨hx, hok⟩)
          · exact Or.inl h
          · exact Or.inr ⟨List.mem_cons_of_mem _ hx, hok⟩
        · rintro (h | ⟨hx, hok⟩)
          · exact Or.inl h
          · rcases List.mem_cons.mp hx with rfl | hx'
            · exact absurd hadj hok
            · exact Or.inr ⟨hx', hok⟩
      · intro r
        rw [c3 r]
        constructor
        · rintro (h | ⟨hx, hok, hns, hsg, he⟩)
          · exact Or.inl h
          · exact Or.inr ⟨List.mem_cons_of_mem _ hx, hok, hns, hsg, he⟩
        · rintro (h | ⟨hx, hok, hns, hsg, he⟩)
          · exact Or.inl h
          · rcases List.mem_cons.mp hx with heq | hx'
            · have h1 : r.i = p.1 := (Prod.ext_iff.mp heq).1
              have h2 : r.j = p.2 := (Prod.ext_iff.mp heq).2
              rw [h1, h2] at hok
              exact absurd hadj hok
            · exact Or.inr ⟨hx', hok, hns, hsg, he⟩
    · by_cases hseenp : p ∈ seen
      · rw [processPair_seen edges m (A, seen) p hadj hplt hseenp]
        obtain ⟨c1, c2, c3, c5⟩ := ih A seen hStail hseen hAseen hAnodup
        refine ⟨?_, c2, ?_, c5⟩
        · intro x
          rw [c1 x]
          constructor
          · rintro (h | ⟨hx, hok⟩)
            · exact Or.inl h
            · exact Or.inr ⟨List.mem_cons_of_mem _ hx, hok⟩
          · rintro (h | ⟨hx, hok⟩)
            · exact Or.inl h
            · rcases List.mem_cons.mp hx with rfl | hx'
              · exact Or.inl hseenp
              · exact Or.inr ⟨hx', hok⟩
        · intro r
          rw [c3 r]
          constructor
          · rintro (h | ⟨hx, hok, hns, hsg, he⟩)
            · exact Or.inl h
            · exact Or.inr ⟨List.mem_cons_of_mem _ hx, hok, hns, hsg, he⟩
          · rintro (h | ⟨hx, hok, hns, hsg, he⟩)
            · exact Or.inl h
            · rcases List.mem_cons.mp hx with heq | hx'
              · rw [heq] at hns
                exact absurd hseenp hns
              · exact Or.inr ⟨hx', hok, hns, hsg, he⟩
      · have hseen' : (seen ++ [p]).Nodup := by
          refine hseen.append (List.nodup_singleton p) ?_
          intro a ha hb
          rw [List.mem_singleton] at hb
          subst hb
          exact hseenp ha
        rw [processPair_new edges m (A, seen) p hadj hplt hseenp]
        by_cases hseg : segTest edges p.1 p.2 = true
        · rw [if_pos hseg]
          have hAseen' : ∀ r ∈ A ++ [mkRec edges p.1 p.2],
              (r.i, r.j) ∈ seen ++ [p] := by
            intro r hr
            rcases List.mem_append.mp hr with h | h
            · exact List.mem_append_left _ (hAseen r h)
            · rw [List.mem_singleton] at h
              subst h
              apply List.mem_append_right
              simp [mkRec_i, mkRec_j]
          have hAnodup' : ((A ++ [mkRec edges p.1 p.2]).map fun r => (r.i, r.j)).Nodup := by
            rw [List.map_append]
            refine hAnodup.append (by simp) ?_
            intro x hx hx2
            simp only [List.map_cons, List.map_nil, List.mem_singleton,
              mkRec_i, mkRec_j] at hx2
            obtain ⟨r, hr, hrx⟩ := List.mem_map.mp hx
            apply hseenp
            have : x ∈ seen := hrx ▸ hAseen r hr
            rwa [hx2, Prod.mk.eta] at this
          obtain ⟨c1, c2, c3, c5⟩ := ih _ _ hStail hseen' hAseen' hAnodup'
          refine ⟨?_, c2, ?_, c5⟩
          · intro x
            rw [c1 x]
            simp only [List.mem_append, List.mem_cons, List.not_mem_nil, or_false]
            constructor
            · rintro ((h | rfl) | ⟨hx, hok⟩)
              · exact Or.inl h
              · exact Or.inr ⟨Or.inl rfl, hadj⟩
              · exact Or.inr ⟨Or.inr hx, hok⟩
            · rintro (h | ⟨rfl | hx, hok⟩)
              · exact Or.inl (Or.inl h)
              · exact Or.inl (Or.inr rfl)
              · exact Or.inr ⟨hx, hok⟩
          · intro r
            rw [c3 r]
            constructor
            · rintro (hA | ⟨hx, hok, hns, hsg, he⟩)
              · rcases List.mem_append.mp hA with h | h
                · exact Or.inl h
                · rw [List.mem_singleton] at h
                  subst h
                  refine Or.inr ⟨?_, ?_, ?_, ?_, ?_⟩
                  · simp [mkRec_i, mkRec_j, List.mem_cons]
                  · simpa [mkRec_i, mkRec_j] using hadj
                  · simpa [mkRec_i, mkRec_j, Prod.mk.eta] using hseenp
                  · simpa [mkRec_i, mkRec_j] using hseg
                  · simp [mkRec_i, mkRec_j]
              · rw [List.mem_append, List.mem_singleton] at hns
                push_neg at hns
                exact Or.inr ⟨List.mem_cons_of_mem _ hx, hok, hns.1, hsg, he⟩
            · rintro (hA | ⟨hx, hok, hns, hsg, he⟩)
              · exact Or.inl (List.mem_append_left _ hA)
              · by_cases hpp : (r.i, r.j) = p
                · refine Or.inl (List.mem_append_right _ ?_)
                  have h1 : r.i = p.1 := (Prod.ext_iff.mp hpp).1
                  have h2 : r.j = p.2 := (Prod.ext_iff.mp hpp).2
                  rw [List.mem_singleton, he, h1, h2]
                · rcases List.mem_cons.mp hx with heq | hx'
                  · exact absurd heq hpp
                  · refine Or.inr ⟨hx', hok, ?_, hsg, he⟩
                    rw [List.mem_append, List.mem_singleton]
                    push_neg
                    exact ⟨hns, hpp⟩
        · rw [if_neg hseg]
          have hAseen' : ∀ r ∈ A, (r.i, r.j) ∈ seen ++ [p] :=
            fun r hr => List.mem_append_left _ (hAseen r hr)
          obtain ⟨c1, c2, c3, c5⟩ := ih _ _ hStail hseen' hAseen' hAnodup
          refine ⟨?_, c2, ?_, c5⟩
          · intro x
            rw [c1 x]
            simp only [List.mem_append, List.mem_cons, List.not_mem_nil, or_false]
            constructor
            · rintro ((h | rfl) | ⟨hx, hok⟩)
              · exact Or.inl h
              · exact Or.inr ⟨Or.inl rfl, hadj⟩
              · exact Or.inr ⟨Or.inr hx, hok⟩
            · rintro (h | ⟨rfl | hx, hok⟩)
              · exact Or.inl (Or.inl h)
              · exact Or.inl (Or.inr rfl)
              · exact Or.inr ⟨hx, hok⟩
          · intro r
            rw [c3 r]
            constructor
            · rintro (hA | ⟨hx, hok, hns, hsg, he⟩)
              · exact Or.inl hA
              · rw [List.mem_append, List.mem_singleton] at hns
                push_neg at hns
                exact Or.inr ⟨List.mem_cons_of_mem _ hx, hok, hns.1, hsg, he⟩
            · rintro (hA | ⟨hx, hok, hns, hsg, he⟩)
              · exact Or.inl hA
              · rcases List.mem_cons.mp hx with heq | hx'
                · have h1 : r.i = p.1 := (Prod.ext_iff.mp heq).1
                  have h2 : r.j = p.2 := (Prod.ext_iff.mp heq).2
                  rw [h1, h2] at hsg
                  exact absurd hsg hseg
                · refine Or.inr ⟨hx', hok, ?_, hsg, he⟩
                  rw [List.mem_append, List.mem_singleton]
                  push_neg
                  refine ⟨hns, ?_⟩
                  intro hpp
                  have h1 : r.i = p.1 := (Prod.ext_iff.mp hpp).1
                  have h2 : r.j = p.2 := (Prod.ext_iff.mp hpp).2
                  rw [h1, h2] at hsg
                  exact hseg hsg

/-! Assembly: characterization of the whole run. -/

lemma length_edgesOf (r : List Point) : (edgesOf r).length = r.length - 1 := by
  simp [edgesOf]

lemma length_ringEdges (ring : List Point) :
    (ringEdges ring).length = ringM ring := by
  rw [ringEdges, ringM, length_edgesOf]

lemma deep_eq_of_large (ring : List Point) (h : ring ≠ []) (hm : ¬ ringM ring ≤ 3) :
    deep_self_intersections ring =
      some ((runWithGrid ring (theGrid ring)).1, 0,
        (runWithGrid ring (theGrid ring)).2.length) := by
  cases ring with
  | nil => exact absurd rfl h
  | cons p ps =>
    unfold ringM at hm
    unfold deep_self_intersections
    dsimp only
    rw [if_neg hm]
    exact rfl

lemma runGrid_spec (edges : List (Point × Point)) (m : ℕ) (G : Grid)
    (hG : ∀ kv ∈ G, kv.2.Pairwise (· < ·)) :
    (∀ x, x ∈ (runGrid edges m G).2 ↔
        (x ∈ candidateStream G ∧ ¬ adjSkip m x.1 x.2)) ∧
    (runGrid edges m G).2.Nodup ∧
    (∀ r : Inter, r ∈ (runGrid edges m G).1 ↔
        ((r.i, r.j) ∈ candidateStream G ∧ ¬ adjSkip m r.i r.j ∧
          segTest edges r.i r.j = true ∧ r = mkRec edges r.i r.j)) ∧
    (((runGrid edges m G).1.map fun r => (r.i, r.j)).Nodup) := by
  have hlt := stream_lt_of_pairwise G hG
  obtain ⟨c1, c2, c3, c5⟩ := runPairs_spec edges m (candidateStream G) [] []
    hlt (by simp) (by simp) (by simp)
  unfold runGrid
  refine ⟨fun x => ?_, c2, fun r => ?_, c5⟩
  · rw [c1 x]; simp
  · rw [c3 r]; simp

lemma goodGrid_of_perm (P : GridParams) (edges : List (Point × Point)) (G : Grid)
    (hp : G.Perm (buildGrid P edges)) :
    (∀ kv ∈ G, kv.2.Pairwise (· < ·)) ∧
    ((G.map Prod.fst).Nodup) ∧
    (∀ i k, (∃ l, (k, l) ∈ G ∧ i ∈ l) ↔
        i < edges.length ∧ k ∈ cellsOfEdge P edges i) := by
  refine ⟨?_, ?_, ?_⟩
  · intro kv hkv
    exact pairwise_values_buildGrid P edges kv (hp.mem_iff.mp hkv)
  · exact (hp.map Prod.fst).symm.nodup (nodup_keys_buildGrid P edges)
  · intro i k
    rw [← mem_grid_value_buildGrid P edges i k]
    constructor
    · rintro ⟨l, hl, hi⟩
      exact ⟨l, hp.mem_iff.mp hl, hi⟩
    · rintro ⟨l, hl, hi⟩
      exact ⟨l, hp.mem_iff.mpr hl, hi⟩

/-- Characterization of the records produced by a run over any traversal
order of the grid of `ring`. -/
lemma runWithGrid_rec_iff (ring : List Point) (G : Grid)
    (hp : G.Perm (theGrid ring)) (r : Inter) :
    r ∈ (runWithGrid ring G).1 ↔
      (r.i < r.j ∧ r.j < ringM ring ∧ ¬ adjSkip (ringM ring) r.i r.j ∧
        sharesCell ring r.i r.j = true ∧
        segTest (ringEdges ring) r.i r.j = true ∧
        r = mkRec (ringEdges ring) r.i r.j) := by
  obtain ⟨g1, g2, g3⟩ := goodGrid_of_perm (ringParams ring) (ringEdges ring) G hp
  obtain ⟨c1, c2, c3, c5⟩ := runGrid_spec (ringEdges ring) (ringM ring) G g1
  rw [runWithGrid, c3 r,
    mem_candidateStream_of_goodGrid (ringParams ring) (ringEdges ring) G g1 g2 g3]
  rw [length_ringEdges]
  unfold sharesCell
  constructor
  · rintro ⟨⟨hij, _, hjm, hsh⟩, hok, hsg, he⟩
    exact ⟨hij, hjm, hok, hsh, hsg, he⟩
  · rintro ⟨hij, hjm, hok, hsh, hsg, he⟩
    exact ⟨⟨hij, hij.trans hjm, hjm, hsh⟩, hok, hsg, he⟩

/-- Characterization of the seen-pair set produced by a run over any
traversal order of the grid of `ring`. -/
lemma runWithGrid_seen_iff (ring : List Point) (G : Grid)
    (hp : G.Perm (theGrid ring)) (x : ℕ × ℕ) :
    x ∈ (runWithGrid ring G).2 ↔
      (x.1 < x.2 ∧ x.2 < ringM ring ∧ ¬ adjSkip (ringM ring) x.1 x.2 ∧
        sharesCell ring x.1 x.2 = true) := by
  obtain ⟨g1, g2, g3⟩ := goodGrid_of_perm (ringParams ring) (ringEdges ring) G hp
  obtain ⟨c1, c2, c3, c5⟩ := runGrid_spec (ringEdges ring) (ringM ring) G g1
  rw [runWithGrid, c1 x]
  have hx : x = (x.1, x.2) := rfl
  rw [hx, mem_candidateStream_of_goodGrid (ringParams ring) (ringEdges ring) G g1 g2 g3]
  rw [length_ringEdges]
  unfold sharesCell
  constructor
  · rintro ⟨⟨hij, _, hjm, hsh⟩, hok⟩
    exact ⟨hij, hjm, hok, hsh⟩
  · rintro ⟨hij, hjm, hok, hsh⟩
    exact ⟨⟨hij, hij.trans hjm, hjm, hsh⟩, hok⟩

lemma runWithGrid_seen_nodup (ring : List Point) (G : Grid)
    (hp : G.Perm (theGrid ring)) : (runWithGrid ring G).2.Nodup := by
  obtain ⟨g1, g2, g3⟩ := goodGrid_of_perm (ringParams ring) (ringEdges ring) G hp
  exact (runGrid_spec (ringEdges ring) (ringM ring) G g1).2.1

lemma runWithGrid_pairs_nodup (ring : List Point) (G : Grid)
    (hp : G.Perm (theGrid ring)) :
    (((runWithGrid ring G).1.map fun r => (r.i, r.j))).Nodup := by
  obtain ⟨g1, g2, g3⟩ := goodGrid_of_perm (ringParams ring) (ringEdges ring) G hp
  exact (runGrid_spec (ringEdges ring) (ringM ring) G g1).2.2.2

lemma interRecords_eq (ring : List Point) (h : ring ≠ []) (hm : ¬ ringM ring ≤ 3) :
    interRecords ring = (runWithGrid ring (theGrid ring)).1 := by
  rw [interRecords, deep_eq_of_large ring h hm]

lemma testedCount_eq_seen_length (ring : List Point) (h : ring ≠ [])
    (hm : ¬ ringM ring ≤ 3) :
    testedCount ring = (runWithGrid ring (theGrid ring)).2.length := by
  rw [testedCount, deep_eq_of_large ring h hm]

/-- Membership characterization of the records actually returned. -/
lemma interRecords_mem_iff (ring : List Point) (h : ring ≠ [])
    (hm : ¬ ringM ring ≤ 3) (r : Inter) :
    r ∈ interRecords ring ↔
      (r.i < r.j ∧ r.j < ringM ring ∧ ¬ adjSkip (ringM ring) r.i r.j ∧
        sharesCell ring r.i r.j = true ∧
        segTest (ringEdges ring) r.i r.j = true ∧
        r = mkRec (ringEdges ring) r.i r.j) := by
  rw [interRecords_eq ring h hm]
  exact runWithGrid_rec_iff ring (theGrid ring) (List.Perm.refl _) r

/-- Membership characterization of the returned index pairs. -/
lemma resultPairs_mem_iff (ring : List Point) (h : ring ≠ [])
    (hm : ¬ ringM ring ≤ 3) (i j : ℕ) :
    (i, j) ∈ resultPairs ring ↔
      (i < j ∧ j < ringM ring ∧ ¬ adjSkip (ringM ring) i j ∧
        sharesCell ring i j = true ∧ segTest (ringEdges ring) i j = true) := by
  rw [resultPairs]
  constructor
  · intro hmem
    obtain ⟨r, hr, hproj⟩ := List.mem_map.mp hmem
    obtain ⟨h1, h2⟩ := Prod.ext_iff.mp hproj
    dsimp only at h1 h2
    subst h1; subst h2
    obtain ⟨hij, hjm, hok, hsh, hsg, _⟩ := (interRecords_mem_iff ring h hm r).mp hr
    exact ⟨hij, hjm, hok, hsh, hsg⟩
  · rintro ⟨hij, hjm, hok, hsh, hsg⟩
    refine List.mem_map.mpr ⟨mkRec (ringEdges ring) i j, ?_, rfl⟩
    rw [interRecords_mem_iff ring h hm]
    rw [mkRec_i, mkRec_j]
    exact ⟨hij, hjm, hok, hsh, hsg, rfl⟩

/-! Monotone cell indexing and geometric completeness of the grid. -/

lemma ratFloor_eq (q : ℚ) : q.floor = ⌊q⌋ := by
  rw [Rat.floor_def']
  exact Rat.floor_def.symm

lemma truncQ_eq (q : ℚ) : truncQ q = if 0 ≤ q then ⌊q⌋ else ⌈q⌉ := by
  unfold truncQ
  split_ifs
  · exact ratFloor_eq q
  · rw [ratFloor_eq, Int.floor_neg, neg_neg]

lemma truncQ_mono {a b : ℚ} (h : a ≤ b) : truncQ a ≤ truncQ b := by
  rw [truncQ_eq, truncQ_eq]
  split_ifs with h1 h2 h2
  · exact Int.floor_le_floor h
  · exact absurd (h1.trans h) h2
  · refine le_trans (Int.ceil_le.mpr ?_) (Int.floor_nonneg.mpr h2)
    exact_mod_cast (le_of_not_le h1)
  · exact Int.ceil_le_ceil h

lemma clampCell_mono (g : ℕ) {z z' : ℤ} (h : z ≤ z') :
    clampCell g z ≤ clampCell g z' :=
  Int.toNat_le_toNat (max_le_max (le_refl 0) (min_le_min (le_refl _) h))

lemma cellIdx_mono (P : GridParams) (hcw : 0 < P.cw) {u v : ℚ} (h : u ≤ v) :
    clampCell P.g (truncQ ((u - P.minx) / P.cw)) ≤
      clampCell P.g (truncQ ((v - P.minx) / P.cw)) := by
  refine clampCell_mono _ (truncQ_mono ?_)
  rw [div_le_div_iff_of_pos_right hcw]
  linarith

lemma cellIdxY_mono (P : GridParams) (hch : 0 < P.ch) {u v : ℚ} (h : u ≤ v) :
    clampCell P.g (truncQ ((u - P.miny) / P.ch)) ≤
      clampCell P.g (truncQ ((v - P.miny) / P.ch)) := by
  refine clampCell_mono _ (truncQ_mono ?_)
  rw [div_le_div_iff_of_pos_right hch]
  linarith

/-- Any point of an edge's bounding box indexes a cell of that edge. -/
lemma mem_cell_indices_of_bounds (P : GridParams) (hcw : 0 < P.cw)
    (hch : 0 < P.ch) (a b : Point) (px py : ℚ)
    (hx1 : min a.1 b.1 ≤ px) (hx2 : px ≤ max a.1 b.1)
    (hy1 : min a.2 b.2 ≤ py) (hy2 : py ≤ max a.2 b.2) :
    (clampCell P.g (truncQ ((px - P.minx) / P.cw)),
     clampCell P.g (truncQ ((py - P.miny) / P.ch))) ∈
      cell_indices_for_edge P a b := by
  rw [cell_indices_product]
  constructor
  · rw [List.mem_range'_1]
    have l1 := cellIdx_mono P hcw hx1
    have l2 := cellIdx_mono P hcw hx2
    omega
  · rw [List.mem_range'_1]
    have l1 := cellIdxY_mono P hch hy1
    have l2 := cellIdxY_mono P hch hy2
    omega

lemma gridParamsOf_cw (edges : List (Point × Point)) :
    (gridParamsOf edges).cw =
      max (listMax (xsList edges) - listMin (xsList edges)) (1 / 1000000000) /
        (gdim edges.length : ℚ) := rfl

lemma gridParamsOf_ch (edges : List (Point × Point)) :
    (gridParamsOf edges).ch =
      max (listMax (ysList edges) - listMin (ysList edges)) (1 / 1000000000) /
        (gdim edges.length : ℚ) := rfl

lemma gdim_ge_sixteen (m : ℕ) : 16 ≤ gdim m := le_max_left _ _

lemma gridParamsOf_cw_pos (edges : List (Point × Point)) :
    0 < (gridParamsOf edges).cw := by
  rw [gridParamsOf_cw]
  apply div_pos
  · exact lt_of_lt_of_le (by norm_num) (le_max_right _ _)
  · have h := gdim_ge_sixteen edges.length
    exact_mod_cast Nat.lt_of_lt_of_le (by norm_num) h

lemma gridParamsOf_ch_pos (edges : List (Point × Point)) :
    0 < (gridParamsOf edges).ch := by
  rw [gridParamsOf_ch]
  apply div_pos
  · exact lt_of_lt_of_le (by norm_num) (le_max_right _ _)
  · have h := gdim_ge_sixteen edges.length
    exact_mod_cast Nat.lt_of_lt_of_le (by norm_num) h

/-- Edges whose closed bounding boxes meet share a grid cell: the grid
cannot miss a pair whose segments have a common point. -/
lemma sharesCell_of_bboxOverlap (ring : List Point) (i j : ℕ)
    (hov : bboxOverlap (ringEdges ring) i j = true) :
    sharesCell ring i j = true := by
  unfold bboxOverlap at hov
  rw [decide_eq_true_eq] at hov
  set e1 := (ringEdges ring).getD i default with he1
  set e2 := (ringEdges ring).getD j default with he2
  obtain ⟨hx, hy⟩ := hov
  set px := max (min e1.1.1 e1.2.1) (min e2.1.1 e2.2.1) with hpx
  set py := max (min e1.1.2 e1.2.2) (min e2.1.2 e2.2.2) with hpy
  have hcw := gridParamsOf_cw_pos (ringEdges ring)
  have hch := gridParamsOf_ch_pos (ringEdges ring)
  unfold sharesCell sharesCellP
  rw [List.any_eq_true]
  refine ⟨(clampCell (ringParams ring).g (truncQ ((px - (ringParams ring).minx) / (ringParams ring).cw)),
      clampCell (ringParams ring).g (truncQ ((py - (ringParams ring).miny) / (ringParams ring).ch))), ?_, ?_⟩
  · unfold cellsOfEdge
    exact mem_cell_indices_of_bounds (ringParams ring) hcw hch e1.1 e1.2 px py
      (le_max_left _ _) (le_trans hx (min_le_left _ _))
      (le_max_left _ _) (le_trans hy (min_le_left _ _))
  · rw [decide_eq_true_eq]
    unfold cellsOfEdge
    exact mem_cell_indices_of_bounds (ringParams ring) hcw hch e2.1 e2.2 px py
      (le_max_right _ _) (le_trans hx (min_le_right _ _))
      (le_max_right _ _) (le_trans hy (min_le_right _ _))

/-- Membership in the spec-modelled naive scan result. -/
lemma mem_naivePairs (ring : List Point) (i j : ℕ) :
    (i, j) ∈ naivePairs ring ↔
      (i < ringM ring ∧ j < ringM ring ∧ i < j ∧ j ≠ i + 1 ∧ i ≠ j + 1 ∧
        ¬(i = 0 ∧ j = ringM ring - 1) ∧ segTest (ringEdges ring) i j = true) := by
  unfold naivePairs
  simp only [List.mem_flatMap, List.mem_map, List.mem_filter, List.mem_range,
    Bool.and_eq_true, decide_eq_true_eq]
  constructor
  · rintro ⟨i', hi', j', ⟨hj', ⟨⟨⟨hlt, hne1⟩, hne2⟩, hne3⟩, hsg⟩, heq⟩
    obtain ⟨h1, h2⟩ := Prod.ext_iff.mp heq
    dsimp only at h1 h2
    subst h1; subst h2
    exact ⟨hi', hj', hlt, hne1, hne2, hne3, hsg⟩
  · rintro ⟨hi, hj, hlt, hne1, hne2, hne3, hsg⟩
    exact ⟨i, hi, j, ⟨hj, ⟨⟨⟨hlt, hne1⟩, hne2⟩, hne3⟩, hsg⟩, rfl⟩

lemma adjSkip_iff_of_lt (m i j : ℕ) (hij : i < j) :
    ¬ adjSkip m i j ↔ (j ≠ i + 1 ∧ ¬(i = 0 ∧ j = m - 1)) := by
  unfold adjSkip
  omega

/-! Remaining helper lemmas for the claims. -/

lemma runWithGrid_pair_iff (ring : List Point) (G : Grid)
    (hp : G.Perm (theGrid ring)) (i j : ℕ) :
    (i, j) ∈ ((runWithGrid ring G).1.map fun r => (r.i, r.j)) ↔
      (i < j ∧ j < ringM ring ∧ ¬ adjSkip (ringM ring) i j ∧
        sharesCell ring i j = true ∧ segTest (ringEdges ring) i j = true) := by
  constructor
  · intro hmem
    obtain ⟨r, hr, hproj⟩ := List.mem_map.mp hmem
    obtain ⟨h1, h2⟩ := Prod.ext_iff.mp hproj
    dsimp only at h1 h2
    subst h1; subst h2
    obtain ⟨hij, hjm, hok, hsh, hsg, _⟩ := (runWithGrid_rec_iff ring G hp r).mp hr
    exact ⟨hij, hjm, hok, hsh, hsg⟩
  · rintro ⟨hij, hjm, hok, hsh, hsg⟩
    refine List.mem_map.mpr ⟨mkRec (ringEdges ring) i j, ?_, rfl⟩
    rw [runWithGrid_rec_iff ring G hp, mkRec_i, mkRec_j]
    exact ⟨hij, hjm, hok, hsh, hsg, rfl⟩

lemma deep_small_eval (p : Point) (ps : List Point)
    (hm : ringM (p :: ps) ≤ 3) :
    deep_self_intersections (p :: ps) = some ([], 0, 0) := by
  unfold ringM at hm
  unfold deep_self_intersections
  dsimp only
  rw [if_pos hm]

lemma interRecords_eq_nil_of_small (ring : List Point) (hm : ringM ring ≤ 3) :
    interRecords ring = [] := by
  cases ring with
  | nil => rfl
  | cons p ps =>
    unfold interRecords
    rw [deep_small_eval p ps hm]

lemma nonempty_large_of_mem_interRecords (ring : List Point) (r : Inter)
    (hr : r ∈ interRecords ring) : ring ≠ [] ∧ ¬ ringM ring ≤ 3 := by
  constructor
  · intro he
    subst he
    exact absurd hr (List.not_mem_nil r)
  · intro hm
    rw [interRecords_eq_nil_of_small ring hm] at hr
    exact absurd hr (List.not_mem_nil r)

lemma closeRing_of_ne (p : Point) (ps : List Point) (h : ps.getLastD p ≠ p) :
    closeRing (p :: ps) = (p :: ps) ++ [p] := by
  show (if ps.getLastD p = p then p :: ps else (p :: ps) ++ [p]) = (p :: ps) ++ [p]
  rw [if_neg h]

lemma closeRing_append_first (p : Point) (ps : List Point) :
    closeRing ((p :: ps) ++ [p]) = (p :: ps) ++ [p] := by
  rw [List.cons_append]
  show (if (ps ++ [p]).getLastD p = p then p :: (ps ++ [p])
      else (p :: (ps ++ [p])) ++ [p]) = p :: (ps ++ [p])
  rw [if_pos (List.getLastD_concat ..)]

lemma deep_congr (r1 r2 : List Point) (h1 : r1 ≠ []) (h2 : r2 ≠ [])
    (hc : closeRing r1 = closeRing r2) :
    deep_self_intersections r1 = deep_self_intersections r2 := by
  cases r1 with
  | nil => exact absurd rfl h1
  | cons a l1 =>
    cases r2 with
    | nil => exact absurd rfl h2
    | cons b l2 =>
      unfold deep_self_intersections
      dsimp only
      rw [hc]

/-! The claims. -/

section ConcreteEval

attribute [local semireducible] Rat.mul Rat.add Rat.sub Rat.inv Rat.ofScientific

set_option maxRecDepth 400000
set_option maxHeartbeats 16000000

lemma deep_bowtie_eval :
    deep_self_intersections bowtie =
      some ([⟨0, 2, (0, 0), (2, 2), (0, 2), (2, 0)⟩], 0, 1) := by decide

lemma interRecords_bowtie :
    interRecords bowtie = [⟨0, 2, (0, 0), (2, 2), (0, 2), (2, 0)⟩] := by
  unfold interRecords
  rw [deep_bowtie_eval]

/-- C6: for the bowtie ring `[(0,0), (2,2), (0,2), (2,0)]` the detector
returns exactly one intersection record, and it identifies the crossing
of edge 0 (from `(0,0)` to `(2,2)`) with edge 2 (from `(0,2)` to
`(2,0)`); the tested-pair count is 1 and the modelled duration 0. -/
theorem c6_bowtie_single_crossing :
    deep_self_intersections bowtie =
      some ([⟨0, 2, (0, 0), (2, 2), (0, 2), (2, 0)⟩], 0, 1) :=
  deep_bowtie_eval

/-- C1 (counterexample): on `cexRing`, edges 0 and 2 are accepted by
`seg_intersect` (they touch within the `EPS` tolerance) so the naive
all-pairs scan reports the pair `(0, 2)`, but the two edges lie in
disjoint grid rows, the pair is never a candidate, and the grid-based
detector does not report it: the two scans differ. -/
theorem c1_counterexample :
    (0, 2) ∈ naivePairs cexRing ∧ (0, 2) ∉ resultPairs cexRing := by decide

/-- C5 (counterexample): for the bowtie ring the returned tested-pair
count is 1 (only the non-adjacent co-located pair `(0, 2)` is ever added
to `seen_pairs`), while the number of distinct unordered candidate pairs
co-located in at least one grid cell, counted before adjacency
filtering as the claim states, is 5. -/
theorem c5_counterexample :
    testedCount bowtie ≠ claimCandidateCount bowtie := by decide

end ConcreteEval

/-- C4: every nonempty ring with at most 3 edges after closing returns
the empty result list, duration exactly 0 and tested-pair count 0,
regardless of vertex ordering. -/
theorem c4_small_ring_short_circuit (p : Point) (ps : List Point)
    (hm : ringM (p :: ps) ≤ 3) :
    deep_self_intersections (p :: ps) = some ([], 0, 0) :=
  deep_small_eval p ps hm

/-- C9: for every nonempty ring with more than 3 edges the grid cell
width and height are strictly positive (the degenerate bounding box is
replaced by the minimum span `1e-9` and `gdim ≥ 16`), so no cell-index
computation divides by zero, including for rings whose points are all
identical or collinear. -/
theorem c9_cell_size_positive (ring : List Point) (h : ring ≠ [])
    (hm : 3 < ringM ring) :
    0 < (ringParams ring).cw ∧ 0 < (ringParams ring).ch :=
  ⟨gridParamsOf_cw_pos _, gridParamsOf_ch_pos _⟩

/-- C7: when the first and last points of a (nonempty) ring differ, the
result of `deep_self_intersections` on the ring equals its result on the
ring with the first point appended; the closing is performed on a fresh
list and in this pure model the input is never mutated. -/
theorem c7_closing_invariance (p : Point) (ps : List Point)
    (h : ps.getLastD p ≠ p) :
    deep_self_intersections (p :: ps) =
      deep_self_intersections ((p :: ps) ++ [p]) :=
  deep_congr _ _ (by simp) (by simp)
    (by rw [closeRing_of_ne p ps h, closeRing_append_first p ps])

/-- C3: no intersection record returned for any ring pairs adjacent
edges: a reported record `(i, j)` never has `j = i + 1` nor the
wraparound `i = 0`, `j = m - 1`. -/
theorem c3_no_adjacent_pair_reported (ring : List Point) (r : Inter)
    (hr : r ∈ interRecords ring) :
    r.j ≠ r.i + 1 ∧ ¬(r.i = 0 ∧ r.j = ringM ring - 1) := by
  obtain ⟨hne, hm⟩ := nonempty_large_of_mem_interRecords ring r hr
  obtain ⟨hij, hjm, hok, _, _, _⟩ := (interRecords_mem_iff ring hne hm r).mp hr
  exact (adjSkip_iff_of_lt _ _ _ hij).mp hok

/-- C10: every returned record is well-formed: `0 ≤ i < j ≤ m - 1`, and
`(a, b)`, `(c, d)` are exactly the endpoints of edges `i` and `j` of the
closed ring. -/
theorem c10_wellformed_records (ring : List Point) (r : Inter)
    (hr : r ∈ interRecords ring) :
    r.i < r.j ∧ r.j ≤ ringM ring - 1 ∧
    (r.a, r.b) = (ringEdges ring).getD r.i default ∧
    (r.c, r.d) = (ringEdges ring).getD r.j default := by
  obtain ⟨hne, hm⟩ := nonempty_large_of_mem_interRecords ring r hr
  obtain ⟨hij, hjm, _, _, _, he⟩ := (interRecords_mem_iff ring hne hm r).mp hr
  refine ⟨hij, by omega, ?_, ?_⟩
  · rw [he]
    exact Prod.mk.eta
  · rw [he]
    exact Prod.mk.eta

/-- C1 (amended): for every nonempty ring with more than 3 edges, the
pair set returned by the grid-based detector equals the naive all-pairs
scan restricted to pairs of edges co-located in at least one grid cell,
each pair reported exactly once; in particular every naive pair whose
edges' closed bounding boxes meet (hence every pair whose segments share
an actual point) is reported.  An `EPS`-tolerance near-miss with
disjoint bounding boxes can be lost, as `c1_counterexample` shows. -/
theorem c1_grid_refinement_amended (ring : List Point) (h : ring ≠ [])
    (hm : 3 < ringM ring) :
    (∀ i j : ℕ, (i, j) ∈ resultPairs ring ↔
        ((i, j) ∈ naivePairs ring ∧ sharesCell ring i j = true)) ∧
    (resultPairs ring).Nodup ∧
    (∀ i j : ℕ, (i, j) ∈ naivePairs ring →
        bboxOverlap (ringEdges ring) i j = true → (i, j) ∈ resultPairs ring) := by
  have hm' : ¬ ringM ring ≤ 3 := by omega
  refine ⟨?_, ?_, ?_⟩
  · intro i j
    rw [resultPairs_mem_iff ring h hm', mem_naivePairs]
    constructor
    · rintro ⟨hij, hjm, hok, hsh, hsg⟩
      obtain ⟨hne1, hne3⟩ := (adjSkip_iff_of_lt _ _ _ hij).mp hok
      exact ⟨⟨hij.trans hjm, hjm, hij, hne1, by omega, hne3, hsg⟩, hsh⟩
    · rintro ⟨⟨him, hjm, hij, hne1, hne2, hne3, hsg⟩, hsh⟩
      exact ⟨hij, hjm, (adjSkip_iff_of_lt _ _ _ hij).mpr ⟨hne1, hne3⟩, hsh, hsg⟩
  · rw [resultPairs, interRecords_eq ring h hm']
    exact runWithGrid_pairs_nodup ring (theGrid ring) (List.Perm.refl _)
  · intro i j hn hov
    rw [resultPairs_mem_iff ring h hm']
    rw [mem_naivePairs] at hn
    obtain ⟨him, hjm, hij, hne1, hne2, hne3, hsg⟩ := hn
    exact ⟨hij, hjm, (adjSkip_iff_of_lt _ _ _ hij).mpr ⟨hne1, hne3⟩,
      sharesCell_of_bboxOverlap ring i j hov, hsg⟩

/-- C5 (amended): for every nonempty ring with more than 3 edges the
tested-pair count returned by `deep_self_intersections` equals the
number of distinct unordered candidate pairs co-located in at least one
grid cell that also pass the adjacency filter (the code adds a pair to
`seen_pairs` only after the adjacency exclusion). -/
theorem c5_tested_count_amended (ring : List Point) (h : ring ≠ [])
    (hm : 3 < ringM ring) :
    testedCount ring = survivingCandidateCount ring := by
  have hm' : ¬ ringM ring ≤ 3 := by omega
  rw [testedCount_eq_seen_length ring h hm']
  have hnd := runWithGrid_seen_nodup ring (theGrid ring) (List.Perm.refl _)
  rw [← List.toFinset_card_of_nodup hnd]
  unfold survivingCandidateCount
  congr 1
  ext x
  rw [List.mem_toFinset, runWithGrid_seen_iff ring (theGrid ring) (List.Perm.refl _)]
  simp only [Finset.mem_filter, Finset.mem_product, Finset.mem_range]
  constructor
  · rintro ⟨hij, hjm, hok, hsh⟩
    exact ⟨⟨hij.trans hjm, hjm⟩, hij, hok, hsh⟩
  · rintro ⟨⟨him, hjm⟩, hij, hok, hsh⟩
    exact ⟨hij, hjm, hok, hsh⟩

/-- C8: the set of returned `(i, j)` pairs and the tested-pair count do
not depend on the traversal order of the grid (the model of `dict`
iteration order): any two runs over permutations of the ring's grid
yield the same pair set — the set obtained from
`deep_self_intersections` itself — and the same count.  The result is a
pure function of the input ring. -/
theorem c8_result_set_deterministic (ring : List Point) (h : ring ≠ [])
    (hm : 3 < ringM ring) (G₁ G₂ : Grid)
    (hp1 : G₁.Perm (theGrid ring)) (hp2 : G₂.Perm (theGrid ring)) :
    ((runWithGrid ring G₁).1.map fun r => (r.i, r.j)).toFinset =
      ((runWithGrid ring G₂).1.map fun r => (r.i, r.j)).toFinset ∧
    ((runWithGrid ring G₁).1.map fun r => (r.i, r.j)).toFinset =
      (resultPairs ring).toFinset ∧
    (runWithGrid ring G₁).2.length = (runWithGrid ring G₂).2.length := by
  have hm' : ¬ ringM ring ≤ 3 := by omega
  have key : ∀ (G : Grid), G.Perm (theGrid ring) → ∀ x : ℕ × ℕ,
      x ∈ ((runWithGrid ring G).1.map fun r => (r.i, r.j)) ↔
        (x.1 < x.2 ∧ x.2 < ringM ring ∧ ¬ adjSkip (ringM ring) x.1 x.2 ∧
          sharesCell ring x.1 x.2 = true ∧
          segTest (ringEdges ring) x.1 x.2 = true) := by
    intro G hG x
    exact runWithGrid_pair_iff ring G hG x.1 x.2
  refine ⟨?_, ?_, ?_⟩
  · ext x
    rw [List.mem_toFinset, List.mem_toFinset, key G₁ hp1 x, key G₂ hp2 x]
  · ext x
    rw [List.mem_toFinset, List.mem_toFinset, key G₁ hp1 x,
      show x = (x.1, x.2) from rfl, resultPairs_mem_iff ring h hm']
  · have n1 := runWithGrid_seen_nodup ring G₁ hp1
    have n2 := runWithGrid_seen_nodup ring G₂ hp2
    rw [← List.toFinset_card_of_nodup n1, ← List.toFinset_card_of_nodup n2]
    congr 1
    ext x
    rw [List.mem_toFinset, List.mem_toFinset,
      runWithGrid_seen_iff ring G₁ hp1 x, runWithGrid_seen_iff ring G₂ hp2 x]

/-- C2: `seg_intersect` returns true precisely as the claim describes:
a proper crossing with strictly opposite orientation signs in both
pairs (both-exactly-zero falls through to the collinear handling) or
one of the four collinear/touching sub-cases. -/
theorem c2_seg_intersect_claim (a b c d : Point) :
    seg_intersect a b c d = true ↔
      (strictOpp (orient a b c) (orient a b d) ∧
       strictOpp (orient c d a) (orient c d b)) ∨
      (|orient a b c| ≤ EPS ∧ on_seg a b c = true) ∨
      (|orient a b d| ≤ EPS ∧ on_seg a b d = true) ∨
      (|orient c d a| ≤ EPS ∧ on_seg c d a = true) ∨
      (|orient c d b| ≤ EPS ∧ on_seg c d b = true) :=
  c2_seg_intersect_iff_claim a b c d

/-! Witnesses. -/

section Witnesses

attribute [local semireducible] Rat.mul Rat.add Rat.sub Rat.inv Rat.ofScientific

set_option maxRecDepth 400000
set_option maxHeartbeats 4000000

theorem c4_witness :
    ringM triangleRing ≤ 3 ∧
    deep_self_intersections triangleRing = some ([], 0, 0) :=
  ⟨by decide, c4_small_ring_short_circuit (0, 0) [(1, 0), (0, 1)] (by decide)⟩

theorem c9_witness :
    bowtie ≠ [] ∧ 3 < ringM bowtie ∧
    (0 < (ringParams bowtie).cw ∧ 0 < (ringParams bowtie).ch) :=
  ⟨by decide, by decide, c9_cell_size_positive bowtie (by decide) (by decide)⟩

theorem c7_witness :
    [(2, 2), (0, 2), (2, 0)].getLastD ((0 : ℚ), (0 : ℚ)) ≠ (0, 0) ∧
    deep_self_intersections bowtie =
      deep_self_intersections (bowtie ++ [(0, 0)]) :=
  ⟨by decide, c7_closing_invariance (0, 0) [(2, 2), (0, 2), (2, 0)] (by decide)⟩

theorem c3_witness :
    (⟨0, 2, (0, 0), (2, 2), (0, 2), (2, 0)⟩ : Inter) ∈ interRecords bowtie ∧
    ((2 : ℕ) ≠ 0 + 1 ∧ ¬((0 : ℕ) = 0 ∧ (2 : ℕ) = ringM bowtie - 1)) :=
  ⟨by rw [interRecords_bowtie]; exact List.mem_singleton.mpr rfl,
   c3_no_adjacent_pair_reported bowtie ⟨0, 2, (0, 0), (2, 2), (0, 2), (2, 0)⟩
     (by rw [interRecords_bowtie]; exact List.mem_singleton.mpr rfl)⟩

theorem c10_witness :
    (⟨0, 2, (0, 0), (2, 2), (0, 2), (2, 0)⟩ : Inter) ∈ interRecords bowtie ∧
    ((0 : ℕ) < 2 ∧ (2 : ℕ) ≤ ringM bowtie - 1 ∧
      (((0 : ℚ), (0 : ℚ)), ((2 : ℚ), (2 : ℚ))) = (ringEdges bowtie).getD 0 default ∧
      (((0 : ℚ), (2 : ℚ)), ((2 : ℚ), (0 : ℚ))) = (ringEdges bowtie).getD 2 default) :=
  ⟨by rw [interRecords_bowtie]; exact List.mem_singleton.mpr rfl,
   c10_wellformed_records bowtie ⟨0, 2, (0, 0), (2, 2), (0, 2), (2, 0)⟩
     (by rw [interRecords_bowtie]; exact List.mem_singleton.mpr rfl)⟩

theorem c1_amended_witness :
    bowtie ≠ [] ∧ 3 < ringM bowtie ∧
    ((0, 2) ∈ resultPairs bowtie ↔
      ((0, 2) ∈ naivePairs bowtie ∧ sharesCell bowtie 0 2 = true)) ∧
    (resultPairs bowtie).Nodup :=
  ⟨by decide, by decide,
   (c1_grid_refinement_amended bowtie (by decide) (by decide)).1 0 2,
   (c1_grid_refinement_amended bowtie (by decide) (by decide)).2.1⟩

theorem c5_amended_witness :
    bowtie ≠ [] ∧ 3 < ringM bowtie ∧
    testedCount bowtie = survivingCandidateCount bowtie :=
  ⟨by decide, by decide, c5_tested_count_amended bowtie (by decide) (by decide)⟩

theorem c8_witness :
    bowtie ≠ [] ∧ 3 < ringM bowtie ∧
    (((runWithGrid bowtie (theGrid bowtie)).1.map fun r => (r.i, r.j)).toFinset =
        ((runWithGrid bowtie (theGrid bowtie)).1.map fun r => (r.i, r.j)).toFinset ∧
      ((runWithGrid bowtie (theGrid bowtie)).1.map fun r => (r.i, r.j)).toFinset =
        (resultPairs bowtie).toFinset ∧
      (runWithGrid bowtie (theGrid bowtie)).2.length =
        (runWithGrid bowtie (theGrid bowtie)).2.length) :=
  ⟨by decide, by decide,
   c8_result_set_deterministic bowtie (by decide) (by decide)
     (theGrid bowtie) (theGrid bowtie) (List.Perm.refl _) (List.Perm.refl _)⟩

end Witnesses

end WWW
